import Mathlib

/-!
Shallow embedding of the choir assignment program (`src/data/assign.py`):
the availability normalizer, the slot-label parser and chronological slot
sort, the greedy fair scheduler, and the summary-statistics aggregator.
Strings are modelled through their character lists so that every
definition evaluates by kernel reduction.
-/

namespace Choir

/-- A person's display name. -/
abbrev Name := String

/-- A choir voice part label. -/
abbrev Part := String

/-- A rehearsal slot label. -/
abbrev Slot := String

/-- One availability triple, as produced by the normalizer:
`(name, part, slot)`. -/
abbrev Triple := Name × Part × Slot

/-- One raw input record: the three columns the program selects, with the
availability field possibly missing (pandas `NaN`). -/
structure RawRecord where
  name : String
  part : String
  avail : Option String
deriving DecidableEq

/-! ### Python string primitives -/

/-- Python `str.strip` on a character list: drop leading and trailing
whitespace. -/
def trimChars (l : List Char) : List Char :=
  ((l.dropWhile Char.isWhitespace).reverse.dropWhile Char.isWhitespace).reverse

/-- Python `str.strip` on a `String`. -/
def pyStrip (s : String) : String :=
  String.mk (trimChars s.data)

/-- Python `str.split(sep)` with a one-character separator: split on every
occurrence, keeping empty fields, so that `"".split(sep) = ['']`. -/
def splitOnChar (sep : Char) : List Char → List (List Char)
  | [] => [[]]
  | c :: rest =>
    if c = sep then [] :: splitOnChar sep rest
    else
      match splitOnChar sep rest with
      | t :: ts => (c :: t) :: ts
      | [] => [[c]]

/-! ### Availability normalizer (`assign.py` lines 41-49) -/

/-- Clean one availability field (lines 45-49): split on commas, strip each
label, and drop labels that are empty after stripping. -/
def cleanSlots (a : String) : List Slot :=
  (((splitOnChar ',' a.data).map (fun l => String.mk (trimChars l))).filter
    (fun s => s != ""))

/-- The triples one raw record contributes: none when the availability field
is missing (`dropna`, line 44), otherwise one triple per cleaned slot label,
carrying the stripped name and part (lines 42-49). -/
def recordTriples (r : RawRecord) : List Triple :=
  match r.avail with
  | none => []
  | some a => (cleanSlots a).map (fun s => (pyStrip r.name, pyStrip r.part, s))

/-- The availability normalizer: the exploded `(name, part, slot)` relation
in record order (lines 41-49). -/
def normalize (records : List RawRecord) : List Triple :=
  (records.map recordTriples).flatten

/-! ### Slot-label parsing (`parse_slot_to_datetime`, lines 58-77) -/

/-- Python `slot_str.split(' ', 1)[-1]` (line 62): everything after the
first space, or the whole string when it contains no space. -/
def dropFirstTok (l : List Char) : List Char :=
  match l.dropWhile (fun c => c != ' ') with
  | [] => l
  | _ :: rest => rest

/-- Whether two characters spell one of the ordinal suffixes of the regex
`(\d+)(st|nd|rd|th)` (line 63). -/
def isOrdinalSuffix (a b : Char) : Bool :=
  (a == 's' && b == 't') || (a == 'n' && b == 'd') ||
    (a == 'r' && b == 'd') || (a == 't' && b == 'h')

/-- `re.sub(r'(\d+)(st|nd|rd|th)', r'\1', s)` (line 63): erase an ordinal
suffix that immediately follows a digit, scanning left to right and resuming
after each replacement, as `re.sub` does. -/
def stripOrdinals : List Char → List Char
  | [] => []
  | [c] => [c]
  | c :: a :: b :: rest2 =>
    if c.isDigit && isOrdinalSuffix a b then c :: stripOrdinals rest2
    else c :: stripOrdinals (a :: b :: rest2)
  | [c, a] => [c, a]

/-- Numeric value of a digit string. -/
def natOfDigits (l : List Char) : Nat :=
  l.foldl (fun acc c => acc * 10 + (c.toNat - 48)) 0

/-- The `%d` field of `strptime` (line 72): one or two digits with value
1 to 31. -/
def parseDay (l : List Char) : Option Nat :=
  if 1 ≤ l.length ∧ l.length ≤ 2 ∧ l.all Char.isDigit then
    if 1 ≤ natOfDigits l ∧ natOfDigits l ≤ 31 then some (natOfDigits l) else none
  else none

/-- The lowercase month-abbreviation table `strptime`'s `%b` matches
against. -/
def MONTH_ABBRS : List (List Char × Nat) :=
  [(['j', 'a', 'n'], 1), (['f', 'e', 'b'], 2), (['m', 'a', 'r'], 3),
   (['a', 'p', 'r'], 4), (['m', 'a', 'y'], 5), (['j', 'u', 'n'], 6),
   (['j', 'u', 'l'], 7), (['a', 'u', 'g'], 8), (['s', 'e', 'p'], 9),
   (['o', 'c', 't'], 10), (['n', 'o', 'v'], 11), (['d', 'e', 'c'], 12)]

/-- The `%b` field of `strptime` (line 72): a case-insensitive three-letter
month abbreviation, matched against the month-abbreviation table. -/
def monthNum (l : List Char) : Option Nat :=
  (MONTH_ABBRS.find? (fun p => p.1 == l.map Char.toLower)).map (fun p => p.2)

/-- The `%I%p` field of `strptime` (line 72): an hour 1 to 12 followed by
am/pm, case-insensitive, yielding the 24-hour value. -/
def parseHour (l : List Char) : Option Nat :=
  if 1 ≤ (l.takeWhile Char.isDigit).length ∧ (l.takeWhile Char.isDigit).length ≤ 2 then
    if 1 ≤ natOfDigits (l.takeWhile Char.isDigit) ∧
        natOfDigits (l.takeWhile Char.isDigit) ≤ 12 then
      match (l.dropWhile Char.isDigit).map Char.toLower with
      | ['a', 'm'] => some (natOfDigits (l.takeWhile Char.isDigit) % 12)
      | ['p', 'm'] => some (natOfDigits (l.takeWhile Char.isDigit) % 12 + 12)
      | _ => none
    else none
  else none

/-- Days in each month of the (non-leap) fixed year 2025, for `datetime`'s
day-of-month validity check. -/
def monthDays (m : Nat) : Nat :=
  [31, 28, 31, 30, 31, 30, 31, 31, 30, 31, 30, 31].getD (m - 1) 0

/-- Steps of `parse_slot_to_datetime` after the first token is dropped:
erase ordinal suffixes, require exactly three space-separated fields, and
parse them as day, month abbreviation and am/pm hour (lines 63-72). -/
def parseTail (l : List Char) : Option Nat :=
  match splitOnChar ' ' (stripOrdinals l) with
  | [dTok, mTok, hTok] =>
    match parseDay dTok, monthNum mTok, parseHour hTok with
    | some d, some m, some h =>
      if d ≤ monthDays m then some (m * 10000 + d * 100 + h) else none
    | _, _, _ => none
  | _ => none

/-- `parse_slot_to_datetime` (lines 58-77): drop the first space-delimited
token, erase ordinal suffixes, require exactly three space-separated fields,
and parse them as day, month abbreviation and am/pm hour of 2025. The
resulting datetime is encoded order-faithfully as
`month * 10000 + day * 100 + hour24`; `none` stands for an unparseable
label, which the source maps to `datetime.max`. -/
def parse_slot_to_datetime (s : String) : Option Nat :=
  parseTail (dropFirstTok s.data)

/-- Numeric sort key: unparseable labels get a sentinel strictly above every
parseable key, playing the role of `datetime.max`. -/
def slotKeyN (s : String) : Nat :=
  match parse_slot_to_datetime s with
  | some v => v
  | none => 1000000

/-- The slot ordering `sorted(all_slots, key=parse_slot_to_datetime)` uses
(line 80). -/
def slotLE (a b : Slot) : Prop := slotKeyN a ≤ slotKeyN b

instance : DecidableRel slotLE :=
  fun a b => inferInstanceAs (Decidable (slotKeyN a ≤ slotKeyN b))

instance : IsTotal Slot slotLE := ⟨fun a b => Nat.le_total (slotKeyN a) (slotKeyN b)⟩

instance : IsTrans Slot slotLE := ⟨fun _ _ _ => Nat.le_trans⟩

/-- Python's `sorted` is a stable sort; insertion sort is its standard
stable model (line 80). -/
def sortSlots (slots : List Slot) : List Slot := slots.insertionSort slotLE

/-! ### Greedy fair scheduler (`assign.py` lines 52-121) -/

/-- The four fixed parts, in processing order (line 17). -/
def CHOIR_PARTS : List Part := ["Soprano", "Alto", "Tenor", "Bass"]

/-- First-occurrence deduplication, the order `pandas.unique` returns
(lines 53 and 55). -/
def uniqueFirstAux {α : Type} [BEq α] (seen : List α) : List α → List α
  | [] => []
  | a :: l =>
    if seen.contains a then uniqueFirstAux seen l
    else a :: uniqueFirstAux (a :: seen) l

/-- Distinct values of a list, first occurrence first. -/
def uniqueFirst {α : Type} [BEq α] (l : List α) : List α := uniqueFirstAux [] l

/-- The candidate names for one `(slot, part)` cell, in normalizer order
(lines 97-101). -/
def candidatesFor (avail : List Triple) (slot : Slot) (part : Part) : List Name :=
  (avail.filter (fun t => t.2.2 == slot && t.2.1 == part)).map (fun t => t.1)

/-- Comparison by current assignment counter, the key of
`sort_values(ascending=True)` at line 115. -/
def countLE (counts : Name → Nat) (a b : Name) : Prop := counts a ≤ counts b

instance (counts : Name → Nat) : DecidableRel (countLE counts) :=
  fun a b => inferInstanceAs (Decidable (counts a ≤ counts b))

instance (counts : Name → Nat) : IsTotal Name (countLE counts) :=
  ⟨fun a b => Nat.le_total (counts a) (counts b)⟩

instance (counts : Name → Nat) : IsTrans Name (countLE counts) :=
  ⟨fun _ _ _ => Nat.le_trans⟩

/-- Cell selection (lines 108-118): everyone when at most 3 candidates are
available, otherwise the first 3 after sorting by current counter
ascending. The source's `sort_values` (default kind, not documented stable)
guarantees only the ordering by counter; `insertionSort` models it as one
deterministic such ordering, coinciding with numpy's small-array
insertion-sort path, which keeps equal counters in input order. The order
it gives equal counters is a modelling choice, not a guarantee of the
source. -/
def selectAssigned (counts : Name → Nat) (cands : List Name) : List Name :=
  if cands.length ≤ 3 then cands
  else (cands.insertionSort (countLE counts)).take 3

/-- Counter update (line 121): `assignment_counts.loc[assigned_names] += 1`
adds one to the counter of each name listed in `assigned_names` (pandas
`.loc` assignment is per label). -/
def bump (counts : Name → Nat) (assigned : List Name) : Name → Nat :=
  fun n => if assigned.contains n then counts n + 1 else counts n

/-- Process one `(slot, part)` cell (lines 97-121): skip when there is no
candidate, otherwise record the selection and update the counters. -/
def stepCell (counts : Name → Nat) (avail : List Triple) (slot : Slot)
    (part : Part) : List Name × (Name → Nat) :=
  let cands := candidatesFor avail slot part
  if cands.isEmpty then ([], counts)
  else
    let assigned := selectAssigned counts cands
    (assigned, bump counts assigned)

/-- Process the four parts of one slot, in order, threading the counters. -/
def runRow (avail : List Triple) (slot : Slot) :
    (Name → Nat) → List Part → List (Part × List Name) × (Name → Nat)
  | counts, [] => ([], counts)
  | counts, p :: ps =>
    let r1 := stepCell counts avail slot p
    let r2 := runRow avail slot r1.2 ps
    ((p, r1.1) :: r2.1, r2.2)

/-- Process the slots in order, threading the counters (lines 93-121). -/
def runSlots (avail : List Triple) :
    (Name → Nat) → List Slot → List ((Slot × Part) × List Name) × (Name → Nat)
  | counts, [] => ([], counts)
  | counts, s :: ss =>
    let row := runRow avail s counts CHOIR_PARTS
    let rest := runSlots avail row.2 ss
    (row.1.map (fun pc => ((s, pc.1), pc.2)) ++ rest.1, rest.2)

/-- The full scheduler (lines 52-121): the distinct slots in chronological
order crossed with the four parts, starting from all-zero counters. -/
def schedule (avail : List Triple) : List ((Slot × Part) × List Name) :=
  (runSlots avail (fun _ => 0)
    (sortSlots (uniqueFirst (avail.map (fun t => t.2.2))))).1

/-! ### Statistics aggregator (`generate_and_save_summary_stats`,
lines 135-217) -/

/-- Names stored in one assignment cell (lines 171-174): empty cells
contribute nothing, other cells are split on newlines. -/
def cellNames (c : String) : List Name :=
  if c = "" then [] else (splitOnChar '\n' c.data).map String.mk

/-- All names over all cells, with multiplicity (lines 171-174). -/
def allAssignedNames (cells : List String) : List Name :=
  (cells.map cellNames).flatten

/-- `value_counts` for one name (line 175): its number of occurrences over
all cells. -/
def totalAssigned (cells : List String) (n : Name) : Nat :=
  (allAssignedNames cells).count n

/-- `TotalWantedSlots` for one availability field (lines 191-194): the
number of comma-delimited entries, 0 when the field is missing or empty. -/
def wantedCount (avail : Option String) : Nat :=
  match avail with
  | none => 0
  | some s => if s = "" then 0 else (splitOnChar ',' s.data).length

/-- The first raw record whose stripped name matches: the lookup that
`drop_duplicates(subset=[NAME_COL])` keeps (lines 186-195). -/
def findRecord (records : List RawRecord) (n : Name) : Option RawRecord :=
  records.find? (fun r => pyStrip r.name == n)

/-- One output statistics row; `wanted = none` models the `NaN` a left merge
leaves for a person absent from the raw records (lines 198-205). -/
structure StatRow where
  part : String
  name : Name
  assigned : Nat
  wanted : Option Nat
deriving DecidableEq

/-- The statistics rows (lines 170-206): one row per name appearing in the
assignment table, with its occurrence count, left-joined with the raw-record
lookup; a name without a record gets part `"Unknown"` and a missing wanted
count. -/
def statsRows (cells : List String) (records : List RawRecord) : List StatRow :=
  (uniqueFirst (allAssignedNames cells)).map (fun n =>
    match findRecord records n with
    | some r => ⟨pyStrip r.part, n, totalAssigned cells n, some (wantedCount r.avail)⟩
    | none => ⟨"Unknown", n, totalAssigned cells n, none⟩)

/-! ### Required-column check (`assign.py` lines 14-16 and 33-39) -/

/-- The `NAME_COL` column name (line 14). -/
def NAME_COL : String := "Name and Part"

/-- The `PART_COL` column name (line 15). -/
def PART_COL : String := "part"

/-- The `AVAIL_COL` column name (line 16). -/
def AVAIL_COL : String := "Please select dates and times you are available on:"

/-- The three required input columns, in the order the error message lists
them. -/
def REQUIRED_COLS : List String := [NAME_COL, PART_COL, AVAIL_COL]

/-- The information the failure path at lines 35-39 reports: the columns
that were needed and the columns actually present. -/
structure SchemaError where
  expected : List String
  found : List String
deriving DecidableEq

/-- A loaded CSV: its column list plus the projection of the three required
columns (meaningful when those columns are present). -/
structure Csv where
  cols : List String
  records : List RawRecord

/-- `solve_choir_assignment` (lines 6-133): when a required column is
missing the run stops at lines 35-39, reporting the needed and the found
columns and writing no assignment table; otherwise the availability is
normalized and scheduled. -/
def solve_choir_assignment (c : Csv) :
    Except SchemaError (List ((Slot × Part) × List Name)) :=
  if REQUIRED_COLS.all (fun f => c.cols.contains f) then
    .ok (schedule (normalize c.records))
  else
    .error ⟨REQUIRED_COLS, c.cols⟩

/-- Modelled from the spec's words for the claimed `TotalWantedSlots`
semantics: the number of distinct slots the person originally marked
available. -/
def distinctWantedCount (records : List RawRecord) (n : Name) : Nat :=
  (uniqueFirst ((normalize records).filterMap
    (fun t => if t.1 == n then some t.2.2 else none))).length

/-! ### Lemmas about the slot parser and the slot sort -/

lemma parseDay_bounds {l : List Char} {d : Nat} (h : parseDay l = some d) :
    1 ≤ d ∧ d ≤ 31 := by
  unfold parseDay at h
  split at h
  · split at h
    · obtain rfl := Option.some.inj h
      assumption
    · exact absurd h (by simp)
  · exact absurd h (by simp)

lemma monthNum_bounds {l : List Char} {m : Nat} (h : monthNum l = some m) :
    1 ≤ m ∧ m ≤ 12 := by
  unfold monthNum at h
  cases hf : MONTH_ABBRS.find? (fun p => p.1 == l.map Char.toLower) with
  | none => rw [hf] at h; cases h
  | some p =>
    rw [hf] at h
    have hm : p.2 = m := Option.some.inj (by simpa using h)
    have hp : p ∈ MONTH_ABBRS := List.mem_of_find?_eq_some hf
    have hall : ∀ q ∈ MONTH_ABBRS, 1 ≤ q.2 ∧ q.2 ≤ 12 := by decide
    rw [← hm]
    exact hall p hp

lemma parseHour_bounds {l : List Char} {h0 : Nat} (h : parseHour l = some h0) :
    h0 ≤ 23 := by
  unfold parseHour at h
  split at h
  · split at h
    · split at h
      · obtain rfl := Option.some.inj h
        omega
      · obtain rfl := Option.some.inj h
        omega
      · cases h
    · cases h
  · cases h

lemma parseTail_lt {l : List Char} {v : Nat} (h : parseTail l = some v) :
    v < 1000000 := by
  unfold parseTail at h
  split at h
  · split at h
    · split at h
      · obtain rfl := Option.some.inj h
        have hd := parseDay_bounds (by assumption)
        have hm := monthNum_bounds (by assumption)
        have hh := parseHour_bounds (by assumption)
        omega
      · cases h
    · cases h
  · cases h

lemma parse_lt {s : Slot} {v : Nat} (h : parse_slot_to_datetime s = some v) :
    v < 1000000 :=
  parseTail_lt h

lemma slotKeyN_lt_of_parse {s : Slot} {v : Nat}
    (h : parse_slot_to_datetime s = some v) : slotKeyN s < 1000000 := by
  simp only [slotKeyN, h]
  exact parse_lt h

lemma slotKeyN_eq_of_none {s : Slot} (h : parse_slot_to_datetime s = none) :
    slotKeyN s = 1000000 := by
  simp [slotKeyN, h]

lemma slotKeyN_le (s : Slot) : slotKeyN s ≤ 1000000 := by
  unfold slotKeyN
  split
  · exact Nat.le_of_lt (parse_lt (by assumption))
  · exact Nat.le_refl _

lemma filter_none_orderedInsert (x : Slot) (s : List Slot) :
    ((s.orderedInsert slotLE x).filter (fun t => (parse_slot_to_datetime t).isNone))
      = if (parse_slot_to_datetime x).isNone
          then x :: s.filter (fun t => (parse_slot_to_datetime t).isNone)
          else s.filter (fun t => (parse_slot_to_datetime t).isNone) := by
  induction s with
  | nil =>
    by_cases hx : (parse_slot_to_datetime x).isNone
    · rw [if_pos hx, List.orderedInsert, List.filter_cons, if_pos hx]
    · rw [if_neg hx, List.orderedInsert, List.filter_cons, if_neg hx]
  | cons y ys ih =>
    rw [List.orderedInsert]
    by_cases hxy : slotLE x y
    · rw [if_pos hxy]
      by_cases hx : (parse_slot_to_datetime x).isNone
      · rw [if_pos hx, List.filter_cons, if_pos hx]
      · rw [if_neg hx, List.filter_cons, if_neg hx]
    · rw [if_neg hxy]
      have hy : (parse_slot_to_datetime y).isNone = false := by
        cases hp : parse_slot_to_datetime y with
        | none =>
          refine absurd ?_ hxy
          unfold slotLE
          rw [slotKeyN_eq_of_none hp]
          exact slotKeyN_le x
        | some v => rfl
      have hyn : ¬ ((parse_slot_to_datetime y).isNone = true) := by
        rw [hy]; exact Bool.false_ne_true
      have hfy : ((y :: ys).filter (fun t => (parse_slot_to_datetime t).isNone))
          = ys.filter (fun t => (parse_slot_to_datetime t).isNone) := by
        rw [List.filter_cons, if_neg hyn]
      rw [List.filter_cons, if_neg hyn, ih, hfy]

lemma filter_none_sortSlots (l : List Slot) :
    ((sortSlots l).filter (fun t => (parse_slot_to_datetime t).isNone))
      = l.filter (fun t => (parse_slot_to_datetime t).isNone) := by
  induction l with
  | nil => rfl
  | cons a l ih =>
    rw [sortSlots, List.insertionSort]
    rw [show (List.insertionSort slotLE l) = sortSlots l from rfl]
    rw [filter_none_orderedInsert]
    by_cases ha : (parse_slot_to_datetime a).isNone
    · rw [if_pos ha, ih, List.filter_cons, if_pos ha]
    · rw [if_neg ha, ih, List.filter_cons, if_neg ha]

/-- C5: the scheduler orders slots by their parsed date-time (year 2025
assumed), unparseable labels sort after all parseable ones and keep their
original relative order, and the four example labels sort to
Nov 17 9am, Nov 18 2pm, Nov 19 11am, then "Garbage Label". -/
theorem c5_slot_ordering :
    sortSlots ["Mon 17th Nov 9am", "Weds 19th Nov 11am",
        "Tues 18th Nov 2pm", "Garbage Label"]
      = ["Mon 17th Nov 9am", "Tues 18th Nov 2pm",
          "Weds 19th Nov 11am", "Garbage Label"] ∧
    (∀ l : List Slot, (sortSlots l).Perm l) ∧
    (∀ l : List Slot, (sortSlots l).Sorted slotLE) ∧
    (∀ l : List Slot,
      ((sortSlots l).filter (fun t => (parse_slot_to_datetime t).isNone))
        = l.filter (fun t => (parse_slot_to_datetime t).isNone)) ∧
    (∀ (s : Slot) (v : Nat), parse_slot_to_datetime s = some v →
      slotKeyN s < 1000000) ∧
    (∀ s : Slot, parse_slot_to_datetime s = none → slotKeyN s = 1000000) :=
  ⟨by decide,
    fun l => List.perm_insertionSort slotLE l,
    fun l => List.sorted_insertionSort slotLE l,
    filter_none_sortSlots,
    fun _ _ h => slotKeyN_lt_of_parse h,
    fun _ h => slotKeyN_eq_of_none h⟩

/-! ### The first token of a slot label is irrelevant to its sort key -/

lemma dropWhile_append_all {p : Char → Bool} {l1 l2 : List Char}
    (h : ∀ x ∈ l1, p x = true) :
    (l1 ++ l2).dropWhile p = l2.dropWhile p := by
  induction l1 with
  | nil => rfl
  | cons a l ih =>
    rw [List.cons_append, List.dropWhile_cons, if_pos (h a (List.mem_cons_self a l))]
    exact ih fun x hx => h x (List.mem_cons_of_mem a hx)

lemma dropFirstTok_token_append {t rest : String} (h : ∀ ch ∈ t.data, ch ≠ ' ') :
    dropFirstTok (t ++ " " ++ rest).data = rest.data := by
  have hdata : (t ++ " " ++ rest).data = t.data ++ (' ' :: rest.data) := by
    rw [String.data_append, String.data_append]
    rw [show (" " : String).data = [' '] from rfl, List.append_assoc]
    rfl
  unfold dropFirstTok
  rw [hdata, dropWhile_append_all (fun x hx => bne_iff_ne.mpr (h x hx)),
    List.dropWhile_cons, if_neg (by decide)]

/-- C10: the slot parser discards everything up to the first space, so two
labels that differ only in their (space-free) first token get identical
parse results and identical sort keys. -/
theorem c10_first_token_irrelevant (t1 t2 rest : String)
    (h1 : ∀ ch ∈ t1.data, ch ≠ ' ') (h2 : ∀ ch ∈ t2.data, ch ≠ ' ') :
    parse_slot_to_datetime (t1 ++ " " ++ rest)
        = parse_slot_to_datetime (t2 ++ " " ++ rest) ∧
      slotKeyN (t1 ++ " " ++ rest) = slotKeyN (t2 ++ " " ++ rest) := by
  have e1 : parse_slot_to_datetime (t1 ++ " " ++ rest) = parseTail rest.data := by
    unfold parse_slot_to_datetime
    rw [dropFirstTok_token_append h1]
  have e2 : parse_slot_to_datetime (t2 ++ " " ++ rest) = parseTail rest.data := by
    unfold parse_slot_to_datetime
    rw [dropFirstTok_token_append h2]
  refine ⟨e1.trans e2.symm, ?_⟩
  unfold slotKeyN
  rw [e1.trans e2.symm]

/-- Witness for C10 at the concrete labels "Mon 17th Nov 9am" and
"Zzz 17th Nov 9am". -/
theorem c10_first_token_irrelevant_witness :
    parse_slot_to_datetime ("Mon" ++ " " ++ "17th Nov 9am")
        = parse_slot_to_datetime ("Zzz" ++ " " ++ "17th Nov 9am") ∧
      slotKeyN ("Mon" ++ " " ++ "17th Nov 9am")
        = slotKeyN ("Zzz" ++ " " ++ "17th Nov 9am") :=
  c10_first_token_irrelevant "Mon" "Zzz" "17th Nov 9am" (by decide) (by decide)

/-! ### Lemmas about the scheduler -/

lemma mem_candidatesFor {avail : List Triple} {s : Slot} {p : Part} {n : Name} :
    n ∈ candidatesFor avail s p ↔ ((n, p, s) : Triple) ∈ avail := by
  unfold candidatesFor
  rw [List.mem_map]
  constructor
  · rintro ⟨t, ht, rfl⟩
    obtain ⟨hmem, hcond⟩ := List.mem_filter.mp ht
    rw [Bool.and_eq_true, beq_iff_eq, beq_iff_eq] at hcond
    obtain ⟨hs, hp⟩ := hcond
    have heq : ((t.1, p, s) : Triple) = t := by
      rw [← hp, ← hs]
    rw [heq]
    exact hmem
  · intro h
    exact ⟨(n, p, s), List.mem_filter.mpr ⟨h, by simp⟩, rfl⟩

lemma stepCell_no_candidates {counts : Name → Nat} {avail : List Triple}
    {s : Slot} {p : Part} (h : candidatesFor avail s p = []) :
    stepCell counts avail s p = ([], counts) := by
  simp only [stepCell, h]
  rfl

lemma selectAssigned_length (counts : Name → Nat) (cands : List Name) :
    (selectAssigned counts cands).length = min cands.length 3 := by
  unfold selectAssigned
  by_cases h : cands.length ≤ 3
  · rw [if_pos h, Nat.min_eq_left h]
  · rw [if_neg h, List.length_take, List.length_insertionSort]
    omega

lemma selectAssigned_subset {counts : Name → Nat} {cands : List Name}
    {n : Name} (h : n ∈ selectAssigned counts cands) : n ∈ cands := by
  unfold selectAssigned at h
  by_cases hlen : cands.length ≤ 3
  · rw [if_pos hlen] at h
    exact h
  · rw [if_neg hlen] at h
    exact (List.mem_insertionSort _).mp (List.mem_of_mem_take h)

/-- The per-cell soundness property of the scheduler: only available names,
and exactly `min(candidates, 3)` of them. -/
def cellOK (avail : List Triple) (s : Slot) (p : Part) (names : List Name) : Prop :=
  (∀ n ∈ names, ((n, p, s) : Triple) ∈ avail) ∧
    names.length = min (candidatesFor avail s p).length 3

lemma stepCell_cellOK (counts : Name → Nat) (avail : List Triple)
    (s : Slot) (p : Part) : cellOK avail s p (stepCell counts avail s p).1 := by
  by_cases h : (candidatesFor avail s p).isEmpty
  · have hc : candidatesFor avail s p = [] := List.isEmpty_iff.mp h
    rw [stepCell_no_candidates hc]
    refine ⟨fun n hn => absurd hn (List.not_mem_nil n), ?_⟩
    rw [hc]
    rfl
  · have hstep : (stepCell counts avail s p).1
        = selectAssigned counts (candidatesFor avail s p) := by
      simp only [stepCell]
      rw [if_neg h]
    rw [hstep]
    exact ⟨fun n hn => mem_candidatesFor.mp (selectAssigned_subset hn),
      selectAssigned_length counts _⟩

lemma runRow_cells (avail : List Triple) (s : Slot) :
    ∀ (parts : List Part) (counts : Name → Nat) (pn : Part × List Name),
      pn ∈ (runRow avail s counts parts).1 → cellOK avail s pn.1 pn.2 := by
  intro parts
  induction parts with
  | nil =>
    intro counts pn hpn
    simp [runRow] at hpn
  | cons p ps ih =>
    intro counts pn hpn
    simp only [runRow] at hpn
    rcases List.mem_cons.mp hpn with heq | hmem
    · rw [heq]
      exact stepCell_cellOK counts avail s p
    · exact ih _ pn hmem

lemma runSlots_cells (avail : List Triple) :
    ∀ (slots : List Slot) (counts : Name → Nat)
      (cell : (Slot × Part) × List Name),
      cell ∈ (runSlots avail counts slots).1 →
        cellOK avail cell.1.1 cell.1.2 cell.2 := by
  intro slots
  induction slots with
  | nil =>
    intro counts cell h
    simp [runSlots] at h
  | cons s ss ih =>
    intro counts cell h
    simp only [runSlots] at h
    rcases List.mem_append.mp h with hrow | hrest
    · obtain ⟨pn, hpn, heq⟩ := List.mem_map.mp hrow
      rw [← heq]
      exact runRow_cells avail s CHOIR_PARTS counts pn hpn
    · exact ih _ cell hrest

/-- C1: every cell of the assignment table contains only names with an
availability triple for that cell's slot and part, the cell size is
`min(candidates, 3)`, and an empty candidate list leaves the cell empty with
the counters untouched. -/
theorem c1_cell_soundness (avail : List Triple)
    (cell : (Slot × Part) × List Name) (hmem : cell ∈ schedule avail) :
    (∀ n ∈ cell.2, ((n, cell.1.2, cell.1.1) : Triple) ∈ avail) ∧
      cell.2.length = min (candidatesFor avail cell.1.1 cell.1.2).length 3 ∧
      (∀ (counts : Name → Nat) (s : Slot) (p : Part),
        candidatesFor avail s p = [] →
          stepCell counts avail s p = ([], counts)) := by
  unfold schedule at hmem
  have h := runSlots_cells avail _ _ cell hmem
  exact ⟨h.1, h.2, fun _ _ _ hc => stepCell_no_candidates hc⟩

/-- A one-triple availability relation, used to instantiate C1. -/
def availW : List Triple := [("Amy", "Soprano", "X")]

/-- Witness for C1 at the relation `availW` and its Soprano cell. -/
theorem c1_cell_soundness_witness :
    (∀ n ∈ [("Amy" : Name)], ((n, "Soprano", "X") : Triple) ∈ availW) ∧
      ([("Amy" : Name)]).length
          = min (candidatesFor availW "X" "Soprano").length 3 ∧
      (∀ (counts : Name → Nat) (s : Slot) (p : Part),
        candidatesFor availW s p = [] →
          stepCell counts availW s p = ([], counts)) :=
  c1_cell_soundness availW (("X", "Soprano"), ["Amy"]) (by decide)

/-- C2: at any decision point with more than 3 candidates, every assigned
person's pre-assignment counter is at most every unassigned candidate's
counter. -/
theorem c2_fairness_bound (counts : Name → Nat) (cands : List Name)
    (hlen : 3 < cands.length) (a u : Name)
    (ha : a ∈ selectAssigned counts cands) (hu : u ∈ cands)
    (hnu : u ∉ selectAssigned counts cands) :
    counts a ≤ counts u := by
  have hsel : selectAssigned counts cands
      = (cands.insertionSort (countLE counts)).take 3 := by
    unfold selectAssigned
    rw [if_neg (by omega)]
  rw [hsel] at ha hnu
  have hu2 : u ∈ cands.insertionSort (countLE counts) :=
    (List.mem_insertionSort _).mpr hu
  have hsplit := List.take_append_drop 3 (cands.insertionSort (countLE counts))
  have husort : u ∈ (cands.insertionSort (countLE counts)).take 3
      ∨ u ∈ (cands.insertionSort (countLE counts)).drop 3 := by
    rw [← List.mem_append, hsplit]
    exact hu2
  have hdrop := husort.resolve_left hnu
  have hsorted : List.Pairwise (countLE counts)
      (cands.insertionSort (countLE counts)) :=
    List.sorted_insertionSort (countLE counts) cands
  rw [← hsplit] at hsorted
  exact (List.pairwise_append.mp hsorted).2.2 a ha u hdrop

/-- The counters of the spec's worked example: A and C at 0, B at 1,
D at 2. -/
def countsW : Name → Nat :=
  fun n => if n = "B" then 1 else if n = "D" then 2 else 0

/-- The candidate list of the spec's worked example, in normalizer order. -/
def candsW : List Name := ["A", "B", "C", "D"]

/-- Witness for C2 at the worked example: assigned "A" against unassigned
"D". -/
theorem c2_fairness_bound_witness : countsW "A" ≤ countsW "D" :=
  c2_fairness_bound countsW candsW (by decide) "A" "D" (by decide) (by decide)
    (by decide)

/-! ### The spec's worked example (claim C4) -/

/-- The availability relation of the spec's worked example: A, B, C, D all
available for Soprano at "Mon 17th Nov 9am". -/
def availW4 : List Triple :=
  [("A", "Soprano", "Mon 17th Nov 9am"), ("B", "Soprano", "Mon 17th Nov 9am"),
   ("C", "Soprano", "Mon 17th Nov 9am"), ("D", "Soprano", "Mon 17th Nov 9am")]

/-- C4 counterexample: the claim pairs the post-counters 1, 2, 1 with
A, C, B respectively, but processing the cell leaves C at 1 and B at 2. -/
theorem c4_counters_counterexample :
    (stepCell countsW availW4 "Mon 17th Nov 9am" "Soprano").1 = ["A", "C", "B"] ∧
      ¬ ((stepCell countsW availW4 "Mon 17th Nov 9am" "Soprano").2 "A" = 1 ∧
          (stepCell countsW availW4 "Mon 17th Nov 9am" "Soprano").2 "C" = 2 ∧
          (stepCell countsW availW4 "Mon 17th Nov 9am" "Soprano").2 "B" = 1) := by
  decide

/-- C4 as amended: the cell assigns exactly A, C, B in that order, D is left
unassigned, and the counters after the cell are A = 1, C = 1, B = 2, with D
unchanged at 2. -/
theorem c4_example_scenario :
    (stepCell countsW availW4 "Mon 17th Nov 9am" "Soprano").1 = ["A", "C", "B"] ∧
      "D" ∉ (stepCell countsW availW4 "Mon 17th Nov 9am" "Soprano").1 ∧
      (stepCell countsW availW4 "Mon 17th Nov 9am" "Soprano").2 "A" = 1 ∧
      (stepCell countsW availW4 "Mon 17th Nov 9am" "Soprano").2 "C" = 1 ∧
      (stepCell countsW availW4 "Mon 17th Nov 9am" "Soprano").2 "B" = 2 ∧
      (stepCell countsW availW4 "Mon 17th Nov 9am" "Soprano").2 "D" = 2 := by
  decide

/-! ### Missing required columns (claim C7) -/

/-- C7: when a required column is absent, the run fails with a schema error
reporting the expected columns and the columns actually found, and no
assignment table is produced. -/
theorem c7_schema_error (c : Csv) (f : String) (hf : f ∈ REQUIRED_COLS)
    (hnf : f ∉ c.cols) :
    solve_choir_assignment c = .error ⟨REQUIRED_COLS, c.cols⟩ ∧
      ∀ table, solve_choir_assignment c ≠ .ok table := by
  have hall : ¬ (REQUIRED_COLS.all (fun g => c.cols.contains g) = true) := by
    intro hcontra
    rw [List.all_eq_true] at hcontra
    exact hnf (List.elem_iff.mp (hcontra f hf))
  constructor
  · unfold solve_choir_assignment
    rw [if_neg hall]
  · intro table
    unfold solve_choir_assignment
    rw [if_neg hall]
    intro hcontra
    exact Except.noConfusion hcontra

/-- A CSV whose availability column is missing, used to instantiate C7. -/
def csvW : Csv := ⟨[NAME_COL, PART_COL], []⟩

/-- Witness for C7 at a CSV lacking the availability column. -/
theorem c7_schema_error_witness :
    solve_choir_assignment csvW = .error ⟨REQUIRED_COLS, csvW.cols⟩ ∧
      ∀ table, solve_choir_assignment csvW ≠ .ok table :=
  c7_schema_error csvW AVAIL_COL (by decide) (by decide)

/-! ### The normalizer keeps duplicates (claim C9) -/

/-- A raw record whose availability field lists the same slot twice. -/
def recsDup : List RawRecord := [⟨"A", "Soprano", some "X,X"⟩]

/-- C9 counterexample: a raw availability field that lists the same slot
label twice yields the same triple twice, so the normalizer's output is not
a set with one triple per (person, slot) pair. -/
theorem c9_duplicate_counterexample :
    normalize recsDup = [("A", "Soprano", "X"), ("A", "Soprano", "X")] ∧
      (normalize recsDup).count (("A", "Soprano", "X") : Triple) = 2 ∧
      ¬ (normalize recsDup).Nodup := by
  decide

/-- C9 as amended: the normalizer yields a list, one triple per cleaned
comma entry in record order (so repeated labels give duplicate triples); a
triple is present exactly when some record marks that slot. -/
theorem c9_membership (records : List RawRecord) (n : Name) (p : Part)
    (s : Slot) :
    ((n, p, s) : Triple) ∈ normalize records ↔
      ∃ r ∈ records, pyStrip r.name = n ∧ pyStrip r.part = p ∧
        ∃ a, r.avail = some a ∧ s ∈ cleanSlots a := by
  unfold normalize
  rw [List.mem_flatten]
  constructor
  · rintro ⟨l, hl, hmem⟩
    obtain ⟨r, hr, rfl⟩ := List.mem_map.mp hl
    unfold recordTriples at hmem
    cases ha : r.avail with
    | none =>
      rw [ha] at hmem
      cases hmem
    | some a =>
      rw [ha] at hmem
      obtain ⟨s2, hs2, heq⟩ := List.mem_map.mp hmem
      simp only [Prod.mk.injEq] at heq
      obtain ⟨h1, h2, h3⟩ := heq
      exact ⟨r, hr, h1, h2, a, ha, h3 ▸ hs2⟩
  · rintro ⟨r, hr, h1, h2, a, ha, hs⟩
    refine ⟨recordTriples r, List.mem_map.mpr ⟨r, hr, rfl⟩, ?_⟩
    unfold recordTriples
    rw [ha]
    exact List.mem_map.mpr ⟨s, hs, by rw [h1, h2]⟩

/-! ### TotalWantedSlots counts comma entries, not distinct slots
(claim C6) -/

/-- C6 counterexample: with the raw field "X,X" the statistics row reports
TotalWantedSlots 2 although only one distinct slot was marked; and a person
present in the table but absent from the records gets a missing value, not
0. -/
theorem c6_wanted_counterexample :
    statsRows ["A"] recsDup = [⟨"Soprano", "A", 1, some 2⟩] ∧
      distinctWantedCount recsDup "A" = 1 ∧
      statsRows ["A"] recsDup
          ≠ [⟨"Soprano", "A", 1, some (distinctWantedCount recsDup "A")⟩] ∧
      statsRows ["Z"] recsDup = [⟨"Unknown", "Z", 1, none⟩] ∧
      (none : Option Nat) ≠ some 0 := by
  decide

/-- C6 as amended: a statistics row's TotalWantedSlots is the comma-entry
count of the first matching raw record's availability field (0 when that
field is missing or empty), and is missing — not 0 — for a person absent
from the raw records. -/
theorem c6_wanted_slots (cells : List String) (records : List RawRecord)
    (row : StatRow) (hrow : row ∈ statsRows cells records) :
    (∃ r, findRecord records row.name = some r ∧
        row.wanted = some (wantedCount r.avail)) ∨
      (findRecord records row.name = none ∧ row.wanted = none) := by
  unfold statsRows at hrow
  obtain ⟨n, hn, heq⟩ := List.mem_map.mp hrow
  cases hfind : findRecord records n with
  | some r =>
    rw [hfind] at heq
    left
    refine ⟨r, ?_, ?_⟩
    · rw [← heq]
      exact hfind
    · rw [← heq]
  | none =>
    rw [hfind] at heq
    right
    rw [← heq]
    exact ⟨hfind, rfl⟩

/-- The assignment cells used to instantiate C6. -/
def cellsW : List String := ["Amy"]

/-- The raw records used to instantiate C6, with padded name and part. -/
def recordsW : List RawRecord := [⟨" Amy ", " Soprano ", some "X,Y"⟩]

/-- The statistics row the aggregator produces for `cellsW` and
`recordsW`. -/
def rowW : StatRow := ⟨"Soprano", "Amy", 1, some 2⟩

/-- Witness for C6 at the row of "Amy". -/
theorem c6_wanted_slots_witness :
    (∃ r, findRecord recordsW rowW.name = some r ∧
        rowW.wanted = some (wantedCount r.avail)) ∨
      (findRecord recordsW rowW.name = none ∧ rowW.wanted = none) :=
  c6_wanted_slots cellsW recordsW rowW (by decide)

/-! ### TotalAssignedSlots counts occurrences (claim C8) -/

lemma totalAssigned_eq_card_filter {n : Name} :
    ∀ (cells : List String), (∀ c ∈ cells, (cellNames c).count n ≤ 1) →
      totalAssigned cells n
        = (cells.filter (fun c => (cellNames c).contains n)).length := by
  intro cells
  induction cells with
  | nil => intro; rfl
  | cons c cs ih =>
    intro h
    have hc := h c (List.mem_cons_self c cs)
    have hrest : ∀ d ∈ cs, (cellNames d).count n ≤ 1 :=
      fun d hd => h d (List.mem_cons_of_mem c hd)
    have hstep : totalAssigned (c :: cs) n
        = (cellNames c).count n + totalAssigned cs n := by
      unfold totalAssigned allAssignedNames
      rw [List.map_cons, List.flatten_cons, List.count_append]
    rw [hstep, List.filter_cons]
    by_cases hn : n ∈ cellNames c
    · have hcount : (cellNames c).count n = 1 :=
        Nat.le_antisymm hc (List.count_pos_iff.mpr hn)
      rw [if_pos (List.elem_iff.mpr hn), List.length_cons, ih hrest, hcount]
      omega
    · have hcount : (cellNames c).count n = 0 :=
        List.count_eq_zero_of_not_mem hn
      rw [if_neg (fun hc2 => hn (List.elem_iff.mp hc2)), ih hrest, hcount]
      omega

lemma statsRows_assigned {cells : List String} {records : List RawRecord}
    {row : StatRow} (hrow : row ∈ statsRows cells records) :
    row.assigned = totalAssigned cells row.name := by
  unfold statsRows at hrow
  obtain ⟨n, hn, heq⟩ := List.mem_map.mp hrow
  cases hfind : findRecord records n with
  | some r =>
    rw [hfind] at heq
    rw [← heq]
  | none =>
    rw [hfind] at heq
    rw [← heq]

/-- C8 counterexample: a cell listing the same name twice is counted twice
by the aggregator, not once per containing cell. -/
theorem c8_per_cell_counterexample :
    totalAssigned ["A\nA"] "A" = 2 ∧
      ((["A\nA"] : List String).filter
          (fun c => (cellNames c).contains "A")).length = 1 ∧
      totalAssigned ["A\nA"] "A"
        ≠ ((["A\nA"] : List String).filter
            (fun c => (cellNames c).contains "A")).length := by
  decide

/-- C8 as amended: a statistics row's TotalAssignedSlots counts the
occurrences of the name over all cells; whenever no single cell lists the
name more than once — in particular for any table the scheduler writes from
duplicate-free availability — it equals the number of cells whose name list
contains the person. -/
theorem c8_total_assigned (cells : List String) (records : List RawRecord)
    (row : StatRow) (hrow : row ∈ statsRows cells records)
    (hnodup : ∀ c ∈ cells, (cellNames c).count row.name ≤ 1) :
    row.assigned
      = (cells.filter (fun c => (cellNames c).contains row.name)).length := by
  rw [statsRows_assigned hrow]
  exact totalAssigned_eq_card_filter cells hnodup

/-- The assignment cells used to instantiate C8. -/
def cellsW8 : List String := ["A\nB", "A", ""]

/-- The statistics row the aggregator produces for "A" over `cellsW8`. -/
def rowW8 : StatRow := ⟨"Unknown", "A", 2, none⟩

/-- Witness for C8 at the row of "A". -/
theorem c8_total_assigned_witness :
    rowW8.assigned
      = (cellsW8.filter (fun c => (cellNames c).contains rowW8.name)).length :=
  c8_total_assigned cellsW8 [] rowW8 (by decide) (by decide)

end Choir
